import Mathlib

/-!
Verification development for the Augent audio-intelligence tool.

The definitions below are a shallow embedding of the repository's core:
`augent/search.py` (keyword/proximity search), `augent/memory.py` (the
content-addressed transcription store), and `augent/embeddings.py`
(semantic ranking, cross-memory search and chapter detection).

Modelling conventions:
* Python `str` is modelled as `String` (operated on via `List Char`);
  only ASCII behaviour of `lower`/`isalnum` is relied on.
* Python `float` quantities (timestamps, durations, confidences,
  similarities) are modelled as `ℚ`.
* The external ML collaborators (whisper transcription, the
  sentence-transformer encoder) are out of scope per the spec; the cosine
  similarity values they induce (which involve real square roots) are
  abstracted as explicit similarity lists / functions supplied as
  parameters, exactly where the Python code consumes them.
* SHA-256 is abstracted as an arbitrary deterministic function from file
  bytes to a string (`MemEnv.hashFn`); none of the claims needs more.
-/

namespace Augent

/-! ### Python string helpers (`augent/search.py`, `augent/memory.py`) -/

/-- Python whitespace set used by `str.strip()` / `str.split()`:
space, tab, newline, carriage return, vertical tab, form feed. -/
def pyWhitespace : List Char := [' ', '\t', '\n', '\r', Char.ofNat 11, Char.ofNat 12]

/-- Surrounding punctuation stripped by `clean_word`
(the Python literal is the string of chars dot, comma, bang, question mark,
semicolon, colon, single and double quote, parens, dash, square brackets
and curly braces). -/
def punctChars : List Char :=
  ['.', ',', '!', '?', ';', ':', Char.ofNat 39, Char.ofNat 34, '(', ')', '-',
   Char.ofNat 91, Char.ofNat 93, Char.ofNat 123, Char.ofNat 125]

/-- Lowercase every character (`str.lower`, ASCII behaviour). -/
def lowerChars (s : List Char) : List Char := s.map Char.toLower

/-- Remove the leading and trailing characters that belong to `cs`
(`str.strip(chars)`). -/
def stripSet (cs : List Char) (s : List Char) : List Char :=
  ((s.dropWhile (· ∈ cs)).reverse.dropWhile (· ∈ cs)).reverse

/-- Python `str.lower`. -/
def pyLowerStr (s : String) : String := String.mk (lowerChars s.toList)

/-- Python `str.strip()` with no argument (whitespace). -/
def pyStrip (s : String) : String := String.mk (stripSet pyWhitespace s.toList)

/-- `clean_word` from `augent/search.py`:
`word.lower().strip(".,!?;:'\"()-[]{}").strip()`. -/
def cleanWord (s : String) : String :=
  String.mk (stripSet pyWhitespace (stripSet punctChars (lowerChars s.toList)))

/-- Whether `needle` is an initial run of `hay`. -/
def startsWithChars : List Char → List Char → Bool
  | [], _ => true
  | _ :: _, [] => false
  | a :: as, b :: bs => a == b && startsWithChars as bs

/-- Whether `needle` occurs as a contiguous run inside `hay`. -/
def hasSubChars (needle : List Char) : List Char → Bool
  | [] => startsWithChars needle []
  | a :: t => startsWithChars needle (a :: t) || hasSubChars needle t

/-- Python substring test `needle in hay` on strings. -/
def strIn (needle hay : String) : Bool := hasSubChars needle.toList hay.toList

/-- Python `str.split()` with no argument: split on whitespace runs,
dropping empty chunks. -/
def pySplitWs (s : String) : List String :=
  ((s.toList.splitOnP (· ∈ pyWhitespace)).filter (· ≠ [])).map String.mk

/-- Zero-pad of `f"{n:02d}"` for the second counter (always `0 ≤ n < 60`
at the call sites). -/
def pad2 (n : ℤ) : String := if 0 ≤ n ∧ n < 10 then "0" ++ toString n else toString n

/-- `format_timestamp` from `augent/search.py`: `int(seconds // 60)` and
`int(seconds % 60)` rendered as `m:ss`.  The same formula is inlined as an
f-string in `augent/embeddings.py`. -/
def formatTimestamp (s : ℚ) : String :=
  let m : ℤ := ⌊s / 60⌋
  let r : ℤ := ⌊s⌋ - 60 * m
  toString m ++ ":" ++ pad2 r

/-! ### Keyword search (`augent/search.py`) -/

/-- A timed word, one element of the `words` list of dicts
(keys `word`, `start`, `end`). -/
structure PWord where
  word : String
  start : ℚ
  stop : ℚ
deriving DecidableEq, Repr

/-- Default used for the (always in-bounds) list indexing of the source. -/
def dWord : PWord := { word := "", start := 0, stop := 0 }

/-- The `Match` dataclass of `augent/search.py`. -/
structure Match where
  keyword : String
  timestamp : String
  timestamp_seconds : ℚ
  snippet : String
  confidence : ℚ
  match_type : String
deriving DecidableEq, Repr

/-- `get_context` from `augent/search.py`: the words from
`max(0, center_idx - context_words)` (inclusive) up to
`min(len(words), end_idx + context_words + 1)` (exclusive), joined by
single spaces between literal `...` markers.  `end_idx` is an `ℤ` because
the phrase branch passes `i + len(parts) - 1`, which Python evaluates in
`int`. -/
def getContext (words : List PWord) (centerIdx contextWords : ℕ) (endIdx : ℤ) : String :=
  let start : ℕ := centerIdx - contextWords
  let stop : ℕ := min words.length (endIdx + (contextWords : ℤ) + 1).toNat
  let ctx := String.intercalate " " (((words.drop start).take (stop - start)).map PWord.word)
  "..." ++ ctx ++ "..."

/-- Window description used by the spec (§4.2 snippet construction): the
words in a symmetric window of `cw` words before the first token `first`
and `cw` words after the last token `last`, clipped to the list bounds,
joined with the `...` prefix and suffix.  Stated over `words.map word`
so it can be compared with the source's `get_context`. -/
def specSnippetWindow (words : List PWord) (first : ℕ) (last : ℤ) (cw : ℕ) : String :=
  let start : ℕ := first - cw
  let stop : ℕ := min words.length (last + (cw : ℤ) + 1).toNat
  "..." ++ String.intercalate " " (((words.map PWord.word).drop start).take (stop - start)) ++ "..."

/-- `KeywordSearcher._match_phrase`: the words starting at `startIdx`
must, one for one and in order, satisfy the substring-or-equal rule
against the phrase tokens. -/
def matchPhrase (words : List PWord) (startIdx : ℕ) (parts : List String) : Bool :=
  if words.length < startIdx + parts.length then false
  else (parts.zip ((words.drop startIdx).map (fun w => cleanWord w.word))).all
    (fun pc => strIn pc.1 pc.2 || pc.2 == pc.1)

/-- `KeywordSearcher.search_exact`: for every word index and every
(lowercased) keyword, emit an exact match (single-token keyword,
substring-or-equal on the cleaned word) or a phrase match (multi-token). -/
def searchExact (contextWords : ℕ) (words : List PWord) (keywords : List String) : List Match :=
  let lowerKeywords := keywords.map pyLowerStr
  (List.range words.length).flatMap (fun i =>
    let w := words.getD i dWord
    let currentWord := cleanWord w.word
    lowerKeywords.flatMap (fun keyword =>
      let parts := pySplitWs keyword
      if parts.length = 1 then
        if strIn keyword currentWord || currentWord == keyword then
          [{ keyword := keyword, timestamp := formatTimestamp w.start,
             timestamp_seconds := w.start,
             snippet := getContext words i contextWords (i : ℤ),
             confidence := 1, match_type := "exact" }]
        else []
      else
        if matchPhrase words i parts then
          [{ keyword := keyword, timestamp := formatTimestamp w.start,
             timestamp_seconds := w.start,
             snippet := getContext words i contextWords ((i : ℤ) + parts.length - 1),
             confidence := 1, match_type := "phrase" }]
        else []))

/-- The composite label `f"{keyword1} near {keyword2}"`. -/
def proximityKey (k1 k2 : String) : String := k1 ++ " near " ++ k2

/-- The pre-deduplication match list of `KeywordSearcher.search_proximity`:
all pairs `(pos1, pos2)` of positions whose cleaned words contain the
respective lowercased keyword, with `0 < |pos1 - pos2| <= max_distance`,
iterated `pos1` outer / `pos2` inner.  Note the source hardcodes a
context window of 2 words for the snippet, ignoring
`self.context_words`. -/
def rawProximityMatches (words : List PWord) (k1 k2 : String) (maxDistance : ℤ) : List Match :=
  let k1l := pyLowerStr k1
  let k2l := pyLowerStr k2
  let pos1 := (List.range words.length).filter
    (fun i => strIn k1l (cleanWord (words.getD i dWord).word))
  let pos2 := (List.range words.length).filter
    (fun i => strIn k2l (cleanWord (words.getD i dWord).word))
  pos1.flatMap (fun i =>
    pos2.filterMap (fun j =>
      let dist : ℕ := max i j - min i j
      if 0 < dist ∧ (dist : ℤ) ≤ maxDistance then
        some { keyword := proximityKey k1 k2,
               timestamp := formatTimestamp (words.getD i dWord).start,
               timestamp_seconds := (words.getD i dWord).start,
               snippet := getContext words (min i j) 2 ((max i j : ℕ) : ℤ),
               confidence := 1 - ((dist : ℚ) / (maxDistance : ℚ)) * (3 / 10),
               match_type := "proximity" }
      else none))

/-- The match record emitted by `search_proximity` for the position pair
`(i, j)` (the body of the `matches.append(...)` call). -/
def proximityMatchAt (words : List PWord) (k1 k2 : String) (maxDistance : ℤ)
    (i j : ℕ) : Match :=
  { keyword := proximityKey k1 k2,
    timestamp := formatTimestamp (words.getD i dWord).start,
    timestamp_seconds := (words.getD i dWord).start,
    snippet := getContext words (min i j) 2 ((max i j : ℕ) : ℤ),
    confidence := 1 - (((max i j - min i j : ℕ) : ℚ) / (maxDistance : ℚ)) * (3 / 10),
    match_type := "proximity" }

/-- The deduplication key `(m.keyword, m.timestamp)`. -/
def matchKey (m : Match) : String × String := (m.keyword, m.timestamp)

/-- The `seen`-set deduplication loop at the end of `search_proximity`:
keep each match whose `(keyword, timestamp)` key has not been seen yet. -/
def dedupMatches : List Match → List (String × String) → List Match
  | [], _ => []
  | m :: ms, seen =>
    if matchKey m ∈ seen then dedupMatches ms seen
    else m :: dedupMatches ms (matchKey m :: seen)

/-- `KeywordSearcher.search_proximity`: generate all qualifying pairs,
then deduplicate by `(keyword, timestamp)` keeping first occurrences. -/
def searchProximity (words : List PWord) (k1 k2 : String) (maxDistance : ℤ) : List Match :=
  dedupMatches (rawProximityMatches words k1 k2 maxDistance) []

/-! ### Transcription segments -/

/-- A transcription segment (keys `start`, `end`, `text`). -/
structure Seg where
  start : ℚ
  stop : ℚ
  text : String
deriving DecidableEq, Repr

/-- Default used for in-bounds indexing of segment lists. -/
def dSeg : Seg := { start := 0, stop := 0, text := "" }

/-! ### Transcription memory (`augent/memory.py`)

The SQLite `transcriptions` table is modelled as an association list from
`cache_key` to the stored row (later writes shadow earlier ones, matching
`INSERT OR REPLACE` under primary-key lookup).  `json.dumps`/`json.loads`
on the word/segment lists is an exact round trip and is modelled as the
identity.  `time.time()` is passed in as the `now` argument.  The
markdown side file only contributes the stored `md_path` string here. -/

/-- The transcription dict handed to `TranscriptionMemory.set`
(the external transcription data contract of spec §6: `language`,
`duration`, `text`, `words`, `segments` all present). -/
structure TranscriptionInput where
  language : String
  duration : ℚ
  text : String
  words : List PWord
  segments : List Seg
deriving DecidableEq, Repr

/-- A row of the `transcriptions` table. -/
structure TranscriptionRow where
  audio_hash : String
  model_size : String
  language : String
  duration : ℚ
  text : String
  words : List PWord
  segments : List Seg
  created_at : ℚ
  file_path : String
  title : String
  md_path : String
deriving DecidableEq, Repr

/-- The `MemorizedTranscription` dataclass returned by
`TranscriptionMemory.get`. -/
structure MemorizedTranscription where
  audio_hash : String
  model_size : String
  language : String
  duration : ℚ
  text : String
  words : List PWord
  segments : List Seg
  created_at : ℚ
  file_path : String
  title : String
deriving DecidableEq, Repr

/-- External environment of the store: the file system (path to content
bytes, `none` when `open` raises) and the content hash function
(`hashlib.sha256(...).hexdigest()`, abstracted: the claims only use that
it is a deterministic function of the bytes), plus the markdown
directory. -/
structure MemEnv where
  fs : String → Option (List ℕ)
  hashFn : List ℕ → String
  mdDir : String

/-- The `transcriptions` table. -/
abbrev MemoryState := List (String × TranscriptionRow)

/-- `TranscriptionMemory._cache_key`: `f"{audio_hash}:{model_size}"`. -/
def cacheKey (audioHash modelSize : String) : String := audioHash ++ ":" ++ modelSize

/-- `os.path.basename`: the part after the last `/`. -/
def basenameChars (p : List Char) : List Char :=
  (p.reverse.takeWhile (· ≠ '/')).reverse

/-- The root part of `os.path.splitext` on a basename: drop the suffix
after the last dot, except that leading dots never start an extension. -/
def splitextRootChars (name : List Char) : List Char :=
  let lead := name.takeWhile (· == '.')
  let rest := name.drop lead.length
  let tailNoDot := rest.reverse.takeWhile (· ≠ '.')
  if tailNoDot.length < rest.length then name.take (name.length - tailNoDot.length - 1)
  else name

/-- `TranscriptionMemory._title_from_path`: basename without its
extension. -/
def titleFromPath (p : String) : String :=
  String.mk (splitextRootChars (basenameChars p.toList))

/-- Collapse every run of underscores/whitespace into a single
underscore (the `re.sub(r'[_\s]+', '_', ...)` step). -/
def collapseUnders : List Char → List Char
  | [] => []
  | c :: t =>
    if c == '_' || c ∈ pyWhitespace then
      '_' :: collapseUnders (t.dropWhile (fun d => d == '_' || d ∈ pyWhitespace))
    else c :: collapseUnders t
termination_by l => l.length
decreasing_by
  · exact Nat.lt_succ_of_le (List.dropWhile_sublist _).length_le
  · exact Nat.lt_succ_self _

/-- `TranscriptionMemory._sanitize_filename` (ASCII `isalnum`): keep
alphanumerics and `-_ `, replace the rest by `_`, strip, collapse
underscore/whitespace runs, truncate to 200, fall back to
`"untitled"`. -/
def sanitizeFilename (title : String) : String :=
  let mapped := title.toList.map
    (fun c => if c.isAlphanum || c ∈ ['-', '_', ' '] then c else '_')
  let collapsed := collapseUnders (stripSet pyWhitespace mapped)
  if collapsed = [] then "untitled" else String.mk (collapsed.take 200)

/-- `TranscriptionMemory.set`: hash the file's bytes (an unreadable file
raises inside the `try`, which the silent `except` turns into a no-op),
derive the title and markdown path, and upsert the row under
`cache_key`. -/
def memSet (env : MemEnv) (st : MemoryState) (filePath modelSize : String)
    (tr : TranscriptionInput) (now : ℚ) : MemoryState :=
  match env.fs filePath with
  | none => st
  | some bytes =>
    let audioHash := env.hashFn bytes
    let key := cacheKey audioHash modelSize
    let title := titleFromPath filePath
    let mdPath := env.mdDir ++ "/" ++ sanitizeFilename title ++ ".md"
    (key, { audio_hash := audioHash, model_size := modelSize,
            language := tr.language, duration := tr.duration, text := tr.text,
            words := tr.words, segments := tr.segments,
            created_at := now, file_path := filePath, title := title,
            md_path := mdPath }) :: st

/-- Reconstruction of a `MemorizedTranscription` from a row
(`json.loads` of the serialized word/segment lists is the identity on
what `json.dumps` stored). -/
def rowToMemorized (row : TranscriptionRow) : MemorizedTranscription :=
  { audio_hash := row.audio_hash, model_size := row.model_size,
    language := row.language, duration := row.duration, text := row.text,
    words := row.words, segments := row.segments,
    created_at := row.created_at, file_path := row.file_path,
    title := row.title }

/-- `TranscriptionMemory.get`: hash the file's bytes (missing file means
the `except` returns `None`), look the key up, rebuild the record. -/
def memGet (env : MemEnv) (st : MemoryState) (filePath modelSize : String) :
    Option MemorizedTranscription :=
  match env.fs filePath with
  | none => none
  | some bytes =>
    (st.lookup (cacheKey (env.hashFn bytes) modelSize)).map rowToMemorized

/-! ### Semantic ranking (`augent/embeddings.py`)

`_cosine_similarity` computes `dot / (||q|| * ||v|| + 1e-8)`; the norms
are real square roots of float sums, so the similarity values are
abstracted as a rational-valued function of the candidate index
(`simFn`), exactly the quantity `similarities[idx]` that the ranking code
consumes.  `np.argsort(-similarities)` is an external library call whose
documented contract is: return *some* permutation of `0..n-1` arranging
the array values in sorted order; with the default `kind='quicksort'`
the relative order of equal elements is unspecified (the sort is not
stable).  It is therefore modelled as an arbitrary function
`argsortFn : List ℚ → List ℕ` whose output is only assumed to satisfy
that contract (`IsArgsortDesc`); no tie-breaking order is built into the
model.  The snippet text `_build_snippet(segments, idx, highlight=...)`
is a pure function of the index for a fixed segment list and query; it
is abstracted as `snippetFn`. -/

/-- `similarities[i]` (out-of-range reads do not occur at the call
sites). -/
def simAt (sims : List ℚ) (i : ℕ) : ℚ := sims.getD i 0

/-- NumPy's documented contract for `np.argsort(-sims)`: the output is a
permutation of the index list `0..n-1` along which the similarities are
non-increasing.  Nothing is assumed about the order of indices with
equal similarity — the default `kind='quicksort'` is not stable. -/
def IsArgsortDesc (sims : List ℚ) (perm : List ℕ) : Prop :=
  perm.Perm (List.range sims.length) ∧
  List.Pairwise (fun i j => simAt sims j ≤ simAt sims i) perm

/-- One ordering of candidate indices compatible with the argsort
contract: strictly greater similarity first, ties by ascending original
index.  Used only to build the reference instantiation below. -/
def rankRel (sims : List ℚ) (i j : ℕ) : Prop :=
  simAt sims j < simAt sims i ∨ (simAt sims i = simAt sims j ∧ i ≤ j)

instance rankRelDecidable (sims : List ℚ) : DecidableRel (rankRel sims) :=
  fun i j => inferInstanceAs
    (Decidable (simAt sims j < simAt sims i ∨ (simAt sims i = simAt sims j ∧ i ≤ j)))

/-- A reference argsort satisfying `IsArgsortDesc` (insertion sort with
ties by ascending index).  It is *one* output NumPy may produce, used to
instantiate witnesses at concrete inputs; it is not claimed to be the
tie order of `np.argsort`'s default kind. -/
def insertionArgsort (sims : List ℚ) : List ℕ :=
  (List.range sims.length).insertionSort (rankRel sims)

/-- The ranked index prefix `np.argsort(-similarities)[:top_k]` after
the clamp `top_k = min(top_k, n)`, for a given argsort routine. -/
def topIndices (argsortFn : List ℚ → List ℕ) (sims : List ℚ) (topK : ℕ) : List ℕ :=
  (argsortFn sims).take (min topK sims.length)

/-- The similarity list of a segment sequence: one value per segment
index (parallel to the embedding matrix rows). -/
def segSims (segments : List Seg) (simFn : ℕ → ℚ) : List ℚ :=
  (List.range segments.length).map simFn

/-- A single-file semantic result (keys `start`, `end`, `text`,
`timestamp`, `similarity`; the float `round(·, 4)` display rounding of
the similarity is not modelled). -/
structure SemResult where
  start : ℚ
  stop : ℚ
  text : String
  timestamp : String
  similarity : ℚ
deriving DecidableEq, Repr

/-- The result record built for ranked index `idx` in `deep_search`. -/
def mkSemResult (segments : List Seg) (snippetFn : ℕ → String) (sims : List ℚ)
    (idx : ℕ) : SemResult :=
  let seg := segments.getD idx dSeg
  { start := seg.start, stop := seg.stop, text := snippetFn idx,
    timestamp := formatTimestamp seg.start, similarity := simAt sims idx }

/-- The ranked result list of `deep_search` (non-empty-segments path):
one record per entry of the clamped, sorted index prefix. -/
def deepSearchResults (argsortFn : List ℚ → List ℕ) (segments : List Seg)
    (simFn : ℕ → ℚ) (snippetFn : ℕ → String) (topK : ℕ) : List SemResult :=
  let sims := segSims segments simFn
  (topIndices argsortFn sims topK).map (mkSemResult segments snippetFn sims)

/-- Python exceptions surfaced by the modelled entry points. -/
inductive PyErr
  | fileNotFound (msg : String)
  | valueError (msg : String)
  | attributeError (msg : String)
deriving DecidableEq, Repr

/-- The dict returned by `deep_search`. -/
structure DeepSearchOut where
  query : String
  results : List SemResult
  total_segments : ℕ
  model_used : String
deriving DecidableEq, Repr

/-- `deep_search`: missing audio file raises `FileNotFoundError`; an
empty segment list short-circuits to an empty result; otherwise the
segments are ranked against the query.  The transcription collaborator's
output is the `segments` parameter; the query is never validated.  The
function takes no deduplication parameter and applies no temporal
deduplication pass. -/
def deepSearch (argsortFn : List ℚ → List ℕ) (audioExists : Bool)
    (segments : List Seg) (simFn : ℕ → ℚ) (snippetFn : ℕ → String)
    (audioPath query modelSize : String) (topK : ℕ) :
    Except PyErr DeepSearchOut :=
  if audioExists = false then
    .error (.fileNotFound ("Audio file not found: " ++ audioPath))
  else if segments.length = 0 then
    .ok { query := query, results := [], total_segments := 0, model_used := modelSize }
  else
    .ok { query := query,
          results := deepSearchResults argsortFn segments simFn snippetFn topK,
          total_segments := segments.length, model_used := modelSize }

/-! ### Cross-memory search (`augent/embeddings.py: search_memory`) -/

/-- One entry of `memory.get_all_with_embeddings(...)`.  The
embedding-staleness fallback (`_get_or_compute_embeddings` on a missing
or misaligned embedding set) is modelled as always yielding embeddings
aligned with the entry's segments, so every entry with non-empty
segments contributes all its segments to the global candidate list. -/
structure MemEntry where
  audio_hash : String
  title : String
  file_path : String
  segments : List Seg
deriving DecidableEq, Repr

/-- A cross-file semantic result (additionally carries `title` and
`file_path` back-references). -/
structure CrossResult where
  title : String
  file_path : String
  start : ℚ
  stop : ℚ
  text : String
  timestamp : String
  similarity : ℚ
deriving DecidableEq, Repr

/-- The dict returned by `search_memory`. -/
structure SearchMemoryOut where
  query : String
  mode : String
  results : List CrossResult
  total_segments : ℕ
  files_searched : ℕ
deriving DecidableEq, Repr

/-- The global candidate list of `_search_memory_semantic`: every
segment of every entry, tagged with its source title and path, in entry
order. -/
def globalSegments (entries : List MemEntry) : List (String × String × Seg) :=
  entries.flatMap (fun e => e.segments.map (fun s => (e.title, e.file_path, s)))

/-- `_search_memory_semantic`: rank the global candidate list against
the query, clamp to `top_k`, and build one back-referenced result per
ranked index.  `simFn` abstracts the cosine similarity of the query
against global candidate `i`; `snippetFn` abstracts
`_build_snippet(file_segments, seg_idx, highlight=...)`. -/
def searchMemorySemantic (argsortFn : List ℚ → List ℕ) (query : String)
    (topK : ℕ) (entries : List MemEntry) (simFn : ℕ → ℚ)
    (snippetFn : ℕ → String) : SearchMemoryOut :=
  let allSegs := globalSegments entries
  if allSegs.length = 0 then
    { query := query, mode := "semantic", results := [], total_segments := 0,
      files_searched := entries.length }
  else
    let sims := (List.range allSegs.length).map simFn
    { query := query, mode := "semantic",
      results := (topIndices argsortFn sims topK).map (fun idx =>
        let t := allSegs.getD idx ("", "", dSeg)
        { title := t.1, file_path := t.2.1, start := t.2.2.start, stop := t.2.2.stop,
          text := snippetFn idx, timestamp := formatTimestamp t.2.2.start,
          similarity := simAt sims idx }),
      total_segments := allSegs.length, files_searched := entries.length }

/-- `search_memory`: reject blank queries and invalid modes with
`ValueError`.  The `"keyword"` branch then evaluates
`memory.get_all_with_segments()` — `TranscriptionMemory` defines no such
attribute (`augent/memory.py` only defines `get_all_with_embeddings`),
so Python raises `AttributeError` at the attribute lookup, before any
entry is read; this is modelled as the corresponding error value.  The
`"semantic"` branch completes via `get_all_with_embeddings` and
`_search_memory_semantic`. -/
def searchMemory (argsortFn : List ℚ → List ℕ) (entries : List MemEntry)
    (simFn : ℕ → ℚ) (snippetFn : ℕ → String) (query : String) (topK : ℕ)
    (mode : String) : Except PyErr SearchMemoryOut :=
  if pyStrip query = "" then
    .error (.valueError "Missing required parameter: query")
  else if mode ≠ "keyword" ∧ mode ≠ "semantic" then
    .error (.valueError ("Invalid mode: " ++ mode ++ ". Must be 'keyword' or 'semantic'."))
  else if mode = "keyword" then
    .error (.attributeError "'TranscriptionMemory' object has no attribute 'get_all_with_segments'")
  else if entries.length = 0 then
    .ok { query := query, mode := "semantic", results := [], total_segments := 0,
          files_searched := 0 }
  else
    .ok (searchMemorySemantic argsortFn query topK entries simFn snippetFn)

/-! ### Chapter detection (`augent/embeddings.py: detect_chapters`)

The consecutive-segment cosine similarities (one per adjacent pair) are
abstracted as `simFn i` for the pair `(i, i+1)`; the boundary list and
the chapter assembly mirror the source exactly. -/

/-- The `chapters` dict record. -/
structure Chapter where
  chapter_number : ℕ
  start : ℚ
  stop : ℚ
  start_timestamp : String
  end_timestamp : String
  text : String
  segment_count : ℕ
deriving DecidableEq, Repr

/-- Boundary indices: `[0]` plus `i + 1` for every adjacent pair `i`
(of `n - 1` pairs) whose similarity drops below the sensitivity. -/
def chapterBoundaries (n : ℕ) (simFn : ℕ → ℚ) (sensitivity : ℚ) : List ℕ :=
  0 :: (((List.range (n - 1)).filter (fun i => simFn i < sensitivity)).map (· + 1))

/-- The Python slice `segments[s:e]` (for `0 ≤ s ≤ e`). -/
def sliceList (l : List Seg) (s e : ℕ) : List Seg := (l.drop s).take (e - s)

/-- The chapter segment runs: each boundary paired with the next
boundary (or `len(segments)` for the last), sliced out of the segment
list.  Fewer than 2 segments short-circuits to a single run spanning
whatever exists. -/
def chapterRuns (segments : List Seg) (simFn : ℕ → ℚ) (sensitivity : ℚ) :
    List (List Seg) :=
  if segments.length < 2 then [segments]
  else
    let bs := chapterBoundaries segments.length simFn sensitivity
    (bs.zip (bs.drop 1 ++ [segments.length])).map (fun p => sliceList segments p.1 p.2)

/-- The chapter record built from run number `idx` (0-based) and its
segment run: first segment's start, last segment's end, space-joined
stripped texts. -/
def mkChapter (idx : ℕ) (run : List Seg) : Chapter :=
  let start := (run.headD dSeg).start
  let stop := (run.getLastD dSeg).stop
  { chapter_number := idx + 1, start := start, stop := stop,
    start_timestamp := formatTimestamp start, end_timestamp := formatTimestamp stop,
    text := String.intercalate " " (run.map (fun s => pyStrip s.text)),
    segment_count := run.length }

/-- `detect_chapters` (chapter list): fewer than 2 segments yields the
single degenerate chapter (timestamps hardcoded `0:00`, zero timing when
no segment exists); otherwise one chapter per boundary run. -/
def detectChapters (segments : List Seg) (simFn : ℕ → ℚ) (sensitivity : ℚ) :
    List Chapter :=
  if segments.length < 2 then
    [{ chapter_number := 1,
       start := (segments.headD dSeg).start,
       stop := (segments.headD dSeg).stop,
       start_timestamp := "0:00", end_timestamp := "0:00",
       text := pyStrip (segments.headD dSeg).text,
       segment_count := segments.length }]
  else
    (chapterRuns segments simFn sensitivity).enum.map (fun p => mkChapter p.1 p.2)

/-! ### Concrete inputs used by witnesses and counterexamples -/

/-- Two words, adjacent in time. -/
def wordsAB : List PWord := [⟨"aa", 0, 0⟩, ⟨"bb", 1, 1⟩]

/-- The single proximity match of `wordsAB` for keywords `aa`/`bb` at
`max_distance = 1`: keyword `aa near bb`, timestamp `0:00`, snippet
`...aa bb...`, confidence `1 - (1/1)*0.3 = 0.7`. -/
def mAB1 : Match := proximityMatchAt wordsAB "aa" "bb" 1 0 1

/-- Ten one-letter words at one-second spacing. -/
def words10 : List PWord :=
  [⟨"a", 0, 0⟩, ⟨"b", 1, 1⟩, ⟨"c", 2, 2⟩, ⟨"d", 3, 3⟩, ⟨"e", 4, 4⟩,
   ⟨"f", 5, 5⟩, ⟨"g", 6, 6⟩, ⟨"h", 7, 7⟩, ⟨"i", 8, 8⟩, ⟨"j", 9, 9⟩]

/-- The single proximity match of `words10` for keywords `c`/`e` at
`max_distance = 5`: its snippet uses the hardcoded 2-word window
(`...a b c d e f g...`), and its confidence is `1 - (2/5)*0.3`. -/
def m10 : Match := proximityMatchAt words10 "c" "e" 5 2 4

/-- A one-file environment for the memory witnesses: one readable file
and a constant hash function. -/
def envW : MemEnv :=
  { fs := fun p => if p = "a.mp3" then some [1, 2] else none,
    hashFn := fun _ => "h", mdDir := "md" }

/-! ## Helper lemmas -/

theorem dedupMatches_sublist (l : List Match) (seen : List (String × String)) :
    (dedupMatches l seen).Sublist l := by
  induction l generalizing seen with
  | nil => simp [dedupMatches]
  | cons m ms ih =>
    rw [dedupMatches]
    split
    · exact (ih _).cons m
    · exact (ih _).cons₂ m

theorem mem_of_mem_dedupMatches {l : List Match} {seen : List (String × String)}
    {m : Match} (h : m ∈ dedupMatches l seen) : m ∈ l :=
  (dedupMatches_sublist l seen).mem h

theorem exists_key_mem_dedupMatches {l : List Match} {k : String × String} :
    ∀ {seen : List (String × String)}, (∃ m ∈ l, matchKey m = k) → k ∉ seen →
    ∃ m ∈ dedupMatches l seen, matchKey m = k := by
  induction l with
  | nil => rintro seen ⟨m, hm, -⟩ -; cases hm
  | cons m ms ih =>
    rintro seen ⟨m', hm', hk⟩ hseen
    rw [dedupMatches]
    by_cases hKm : matchKey m ∈ seen
    · rw [if_pos hKm]
      rcases List.mem_cons.mp hm' with rfl | hm'
      · exact absurd (hk ▸ hKm) hseen
      · exact ih ⟨m', hm', hk⟩ hseen
    · rw [if_neg hKm]
      rcases List.mem_cons.mp hm' with rfl | hm'
      · exact ⟨m', List.mem_cons_self _ _, hk⟩
      · by_cases hkm : matchKey m = k
        · exact ⟨m, List.mem_cons_self _ _, hkm⟩
        · obtain ⟨m'', hm'', hk''⟩ := ih ⟨m', hm', hk⟩
            (by
              intro hmem
              rcases List.mem_cons.mp hmem with h | h
              · exact hkm h.symm
              · exact hseen h)
          exact ⟨m'', List.mem_cons_of_mem _ hm'', hk''⟩

theorem mem_rawProximityMatches {words : List PWord} {k1 k2 : String}
    {maxd : ℤ} {m : Match} :
    m ∈ rawProximityMatches words k1 k2 maxd ↔
    ∃ i j, i < words.length ∧ j < words.length ∧
      strIn (pyLowerStr k1) (cleanWord (words.getD i dWord).word) = true ∧
      strIn (pyLowerStr k2) (cleanWord (words.getD j dWord).word) = true ∧
      0 < max i j - min i j ∧ ((max i j - min i j : ℕ) : ℤ) ≤ maxd ∧
      m = proximityMatchAt words k1 k2 maxd i j := by
  simp only [rawProximityMatches, List.mem_flatMap, List.mem_filterMap,
    List.mem_filter, List.mem_range]
  constructor
  · rintro ⟨i, ⟨hi, hk1⟩, j, ⟨hj, hk2⟩, hsome⟩
    split_ifs at hsome with hc
    exact ⟨i, j, hi, hj, hk1, hk2, hc.1, hc.2, (Option.some.injEq _ _ ▸ hsome).symm⟩
  · rintro ⟨i, j, hi, hj, hk1, hk2, hd1, hd2, rfl⟩
    exact ⟨i, ⟨hi, hk1⟩, j, ⟨hj, hk2⟩, by rw [if_pos ⟨hd1, hd2⟩]; rfl⟩

theorem match_type_of_mem_raw {words : List PWord} {k1 k2 : String} {maxd : ℤ}
    {m : Match} (h : m ∈ rawProximityMatches words k1 k2 maxd) :
    m.match_type = "proximity" := by
  obtain ⟨i, j, -, -, -, -, -, -, rfl⟩ := mem_rawProximityMatches.mp h
  rfl

theorem getContext_eq_specSnippetWindow (words : List PWord) (c cw : ℕ) (e : ℤ) :
    getContext words c cw e = specSnippetWindow words c e cw := by
  simp only [getContext, specSnippetWindow, List.map_take, List.map_drop]

/-! ## Claims -/

/-- C4.  Proximity match postcondition: every Match returned by
`search_proximity` corresponds to an index pair `(i, j)` whose cleaned
words contain the respective lowercased keyword as a substring, with
`0 < |i - j| ≤ max_distance`, and its confidence equals
`1 - (|i - j| / max_distance) * 0.3`, which lies in `[0.7, 1]`. -/
theorem proximity_match_postcondition (words : List PWord) (k1 k2 : String)
    (maxd : ℤ) (m : Match) (hm : m ∈ searchProximity words k1 k2 maxd) :
    ∃ i j, i < words.length ∧ j < words.length ∧
      strIn (pyLowerStr k1) (cleanWord (words.getD i dWord).word) = true ∧
      strIn (pyLowerStr k2) (cleanWord (words.getD j dWord).word) = true ∧
      0 < max i j - min i j ∧ ((max i j - min i j : ℕ) : ℤ) ≤ maxd ∧
      m.confidence = 1 - (((max i j - min i j : ℕ) : ℚ) / (maxd : ℚ)) * (3 / 10) ∧
      7 / 10 ≤ m.confidence ∧ m.confidence ≤ 1 := by
  obtain ⟨i, j, hi, hj, hk1, hk2, hd1, hd2, rfl⟩ :=
    mem_rawProximityMatches.mp (mem_of_mem_dedupMatches hm)
  have h1 : (1 : ℚ) ≤ ((max i j - min i j : ℕ) : ℚ) := by exact_mod_cast hd1
  have h2 : ((max i j - min i j : ℕ) : ℚ) ≤ (maxd : ℚ) := by exact_mod_cast hd2
  have h3 : (0 : ℚ) < (maxd : ℚ) := by linarith
  have h4 : ((max i j - min i j : ℕ) : ℚ) / (maxd : ℚ) ≤ 1 := (div_le_one h3).mpr h2
  have h5 : 0 < ((max i j - min i j : ℕ) : ℚ) / (maxd : ℚ) := div_pos (by linarith) h3
  refine ⟨i, j, hi, hj, hk1, hk2, hd1, hd2, rfl, ?_, ?_⟩ <;>
    simp only [proximityMatchAt] <;> nlinarith

/-- Witness for C4 at the concrete two-word list. -/
theorem proximity_match_postcondition_witness :
    mAB1 ∈ searchProximity wordsAB "aa" "bb" 1 ∧
    ∃ i j, i < wordsAB.length ∧ j < wordsAB.length ∧
      strIn (pyLowerStr "aa") (cleanWord (wordsAB.getD i dWord).word) = true ∧
      strIn (pyLowerStr "bb") (cleanWord (wordsAB.getD j dWord).word) = true ∧
      0 < max i j - min i j ∧ ((max i j - min i j : ℕ) : ℤ) ≤ 1 ∧
      mAB1.confidence = 1 - (((max i j - min i j : ℕ) : ℚ) / ((1 : ℤ) : ℚ)) * (3 / 10) ∧
      7 / 10 ≤ mAB1.confidence ∧ mAB1.confidence ≤ 1 :=
  have hmem : mAB1 ∈ searchProximity wordsAB "aa" "bb" 1 := by
    rw [show searchProximity wordsAB "aa" "bb" 1 = [mAB1] from rfl]
    exact List.mem_singleton.mpr rfl
  ⟨hmem, proximity_match_postcondition wordsAB "aa" "bb" 1 mAB1 hmem⟩

/-- C5 counterexample: at the concrete two-word list, the match returned
at `max_distance = 1` (confidence `0.7`) is not an element of the result
at `max_distance = 2` — the same pair is reported there with confidence
`0.85`, because confidence is computed relative to `max_distance`. -/
theorem proximity_monotone_counterexample :
    mAB1 ∈ searchProximity wordsAB "aa" "bb" 1 ∧
    mAB1.confidence = 7 / 10 ∧
    mAB1 ∉ searchProximity wordsAB "aa" "bb" 2 := by
  refine ⟨?_, ?_, ?_⟩
  · rw [show searchProximity wordsAB "aa" "bb" 1 = [mAB1] from rfl]
    exact List.mem_singleton.mpr rfl
  · norm_num [mAB1, proximityMatchAt]
  · intro hmem
    rw [show searchProximity wordsAB "aa" "bb" 2
          = [proximityMatchAt wordsAB "aa" "bb" 2 0 1] from rfl,
        List.mem_singleton] at hmem
    have hc := congrArg Match.confidence hmem
    norm_num [mAB1, proximityMatchAt] at hc

/-- C5 (amended).  For `d1 ≤ d2`, every match returned at `d1` has a
corresponding match at `d2` with the same keyword label, the same
formatted timestamp and the same match type; the full records can differ
because confidence is computed relative to `max_distance` (and the
retained representative pair — hence snippet, timestamp seconds and
confidence — may change). -/
theorem proximity_monotone_keys (words : List PWord) (k1 k2 : String)
    (d1 d2 : ℤ) (hd : d1 ≤ d2) (m : Match)
    (hm : m ∈ searchProximity words k1 k2 d1) :
    ∃ m', m' ∈ searchProximity words k1 k2 d2 ∧ m'.keyword = m.keyword ∧
      m'.timestamp = m.timestamp ∧ m'.match_type = m.match_type := by
  obtain ⟨i, j, hi, hj, hk1, hk2, hd1', hd2', rfl⟩ :=
    mem_rawProximityMatches.mp (mem_of_mem_dedupMatches hm)
  have hraw2 : proximityMatchAt words k1 k2 d2 i j ∈ rawProximityMatches words k1 k2 d2 :=
    mem_rawProximityMatches.mpr ⟨i, j, hi, hj, hk1, hk2, hd1', le_trans hd2' hd, rfl⟩
  obtain ⟨m', hm', hk'⟩ := exists_key_mem_dedupMatches
    ⟨_, hraw2, rfl⟩ (List.not_mem_nil _)
  refine ⟨m', hm', ?_, ?_, ?_⟩
  · exact congrArg Prod.fst hk'
  · exact congrArg Prod.snd hk'
  · exact (match_type_of_mem_raw (mem_of_mem_dedupMatches hm')).trans rfl

/-- Witness for the amended C5 at the concrete two-word list. -/
theorem proximity_monotone_keys_witness :
    (1 : ℤ) ≤ 2 ∧ mAB1 ∈ searchProximity wordsAB "aa" "bb" 1 ∧
    ∃ m', m' ∈ searchProximity wordsAB "aa" "bb" 2 ∧ m'.keyword = mAB1.keyword ∧
      m'.timestamp = mAB1.timestamp ∧ m'.match_type = mAB1.match_type :=
  have hmem : mAB1 ∈ searchProximity wordsAB "aa" "bb" 1 := by
    rw [show searchProximity wordsAB "aa" "bb" 1 = [mAB1] from rfl]
    exact List.mem_singleton.mpr rfl
  ⟨by norm_num, hmem,
    proximity_monotone_keys wordsAB "aa" "bb" 1 2 (by norm_num) mAB1 hmem⟩

/-- C9 counterexample: searching `words10` for `c` near `e` with
`max_distance = 5`, the returned snippet is the hardcoded 2-word window
around the pair (`...a b c d e f g...`), not the claimed symmetric
`context_words = 11` window (which would span all ten words). -/
theorem snippet_window_counterexample :
    m10 ∈ searchProximity words10 "c" "e" 5 ∧
    m10.snippet = "...a b c d e f g..." ∧
    m10.snippet ≠ specSnippetWindow words10 (min 2 4) ((max 2 4 : ℕ) : ℤ) 11 := by
  refine ⟨?_, ?_, ?_⟩
  · rw [show searchProximity words10 "c" "e" 5 = [m10] from rfl]
    exact List.mem_singleton.mpr rfl
  · decide
  · decide

/-- C9 (amended).  Every exact or phrase match's snippet is the
symmetric `context_words` window around the match's token span (first
token `c`, last token `c + tokencount - 1`), clipped to bounds and
joined with the literal `...` prefix and suffix; every proximity match's
snippet is the same construction but with a hardcoded 2-word window
around its index pair, independent of `context_words`. -/
theorem snippet_window_amended (cw : ℕ) (words : List PWord)
    (keywords : List String) (k1 k2 : String) (maxd : ℤ) :
    (∀ m ∈ searchExact cw words keywords, ∃ c, ∃ k ∈ keywords,
      c < words.length ∧ m.timestamp_seconds = (words.getD c dWord).start ∧
      m.snippet =
        specSnippetWindow words c ((c : ℤ) + (pySplitWs (pyLowerStr k)).length - 1) cw) ∧
    (∀ m ∈ searchProximity words k1 k2 maxd, ∃ i j,
      i < words.length ∧ j < words.length ∧
      m.snippet = specSnippetWindow words (min i j) ((max i j : ℕ) : ℤ) 2) := by
  constructor
  · intro m hm
    simp only [searchExact, List.mem_flatMap, List.mem_range, List.mem_map] at hm
    obtain ⟨i, hi, kw, ⟨k, hk, rfl⟩, hmem⟩ := hm
    by_cases hlen : (pySplitWs (pyLowerStr k)).length = 1
    · rw [if_pos hlen] at hmem
      split_ifs at hmem with hcond
      · rcases List.mem_singleton.mp hmem with rfl
        refine ⟨i, k, hk, hi, rfl, ?_⟩
        show getContext words i cw (i : ℤ) = _
        rw [← getContext_eq_specSnippetWindow]
        congr 1
        rw [hlen]
        push_cast
        ring
      · cases hmem
    · rw [if_neg hlen] at hmem
      split_ifs at hmem with hcond
      · rcases List.mem_singleton.mp hmem with rfl
        exact ⟨i, k, hk, hi, rfl, getContext_eq_specSnippetWindow _ _ _ _⟩
      · cases hmem
  · intro m hm
    obtain ⟨i, j, hi, hj, -, -, -, -, rfl⟩ :=
      mem_rawProximityMatches.mp (mem_of_mem_dedupMatches hm)
    exact ⟨i, j, hi, hj, getContext_eq_specSnippetWindow _ _ _ _⟩

/-- Witness for the amended C9: the proximity part applied at the
concrete two-word list. -/
theorem snippet_window_amended_witness :
    mAB1 ∈ searchProximity wordsAB "aa" "bb" 1 ∧
    ∃ i j, i < wordsAB.length ∧ j < wordsAB.length ∧
      mAB1.snippet = specSnippetWindow wordsAB (min i j) ((max i j : ℕ) : ℤ) 2 :=
  have hmem : mAB1 ∈ searchProximity wordsAB "aa" "bb" 1 := by
    rw [show searchProximity wordsAB "aa" "bb" 1 = [mAB1] from rfl]
    exact List.mem_singleton.mpr rfl
  ⟨hmem, (snippet_window_amended 11 wordsAB [] "aa" "bb" 1).2 mAB1 hmem⟩

/-- Helper: appending different strings to a common prefix gives
different strings. -/
theorem append_right_ne (a : String) {b c : String} (h : b ≠ c) : a ++ b ≠ a ++ c := by
  intro heq
  apply h
  have hd := congrArg String.data heq
  simp only [String.data_append] at hd
  exact congrArg String.mk (List.append_cancel_left hd)

/-- Helper: distinct model variants give distinct cache keys for the
same audio hash. -/
theorem cacheKey_ne (h : String) {v1 v2 : String} (hne : v1 ≠ v2) :
    cacheKey h v1 ≠ cacheKey h v2 := by
  intro heq
  exact append_right_ne (h ++ ":") hne (by
    simpa only [cacheKey, String.append_assoc] using heq)

/-- C1.  Cache key separation: storing a transcription of the same
audio file under two distinct model variants creates two independent
records — a subsequent get with either variant returns exactly the
record stored under that variant, because the cache key concatenates the
audio content hash and the model variant. -/
theorem cache_key_separation (env : MemEnv) (st : MemoryState) (path : String)
    (bytes : List ℕ) (v1 v2 : String) (tr1 tr2 : TranscriptionInput)
    (now1 now2 : ℚ) (hfs : env.fs path = some bytes) (hne : v1 ≠ v2) :
    memGet env (memSet env (memSet env st path v1 tr1 now1) path v2 tr2 now2) path v1
      = some { audio_hash := env.hashFn bytes, model_size := v1,
               language := tr1.language, duration := tr1.duration, text := tr1.text,
               words := tr1.words, segments := tr1.segments, created_at := now1,
               file_path := path, title := titleFromPath path } ∧
    memGet env (memSet env (memSet env st path v1 tr1 now1) path v2 tr2 now2) path v2
      = some { audio_hash := env.hashFn bytes, model_size := v2,
               language := tr2.language, duration := tr2.duration, text := tr2.text,
               words := tr2.words, segments := tr2.segments, created_at := now2,
               file_path := path, title := titleFromPath path } := by
  have hbeq : (cacheKey (env.hashFn bytes) v1 == cacheKey (env.hashFn bytes) v2) = false :=
    beq_eq_false_iff_ne.mpr (cacheKey_ne _ hne)
  constructor
  · simp only [memGet, memSet, hfs, List.lookup, hbeq, beq_self_eq_true]
    rfl
  · simp only [memGet, memSet, hfs, List.lookup, beq_self_eq_true]
    rfl

/-- Witness for C1: one file, variants `tiny` and `small`. -/
theorem cache_key_separation_witness :
    envW.fs "a.mp3" = some [1, 2] ∧ "tiny" ≠ "small" ∧
    (memGet envW (memSet envW (memSet envW [] "a.mp3" "tiny"
        { language := "en", duration := 1, text := "t1", words := [], segments := [] } 10)
        "a.mp3" "small"
        { language := "en", duration := 1, text := "t2", words := [], segments := [] } 20)
        "a.mp3" "tiny"
      = some { audio_hash := envW.hashFn [1, 2], model_size := "tiny",
               language := "en", duration := 1, text := "t1", words := [], segments := [],
               created_at := 10, file_path := "a.mp3", title := titleFromPath "a.mp3" } ∧
     memGet envW (memSet envW (memSet envW [] "a.mp3" "tiny"
        { language := "en", duration := 1, text := "t1", words := [], segments := [] } 10)
        "a.mp3" "small"
        { language := "en", duration := 1, text := "t2", words := [], segments := [] } 20)
        "a.mp3" "small"
      = some { audio_hash := envW.hashFn [1, 2], model_size := "small",
               language := "en", duration := 1, text := "t2", words := [], segments := [],
               created_at := 20, file_path := "a.mp3", title := titleFromPath "a.mp3" }) :=
  ⟨rfl, by decide,
    cache_key_separation envW [] "a.mp3" [1, 2] "tiny" "small"
      { language := "en", duration := 1, text := "t1", words := [], segments := [] }
      { language := "en", duration := 1, text := "t2", words := [], segments := [] }
      10 20 rfl (by decide)⟩

/-- C2.  Round trip: `set` followed by `get` with the same file path and
model variant (on an unchanged file) returns a record whose language,
duration, text, words and segments fields equal those of the stored
transcription result. -/
theorem memory_round_trip (env : MemEnv) (st : MemoryState) (path : String)
    (bytes : List ℕ) (v : String) (tr : TranscriptionInput) (now : ℚ)
    (hfs : env.fs path = some bytes) :
    ∃ rec, memGet env (memSet env st path v tr now) path v = some rec ∧
      rec.language = tr.language ∧ rec.duration = tr.duration ∧
      rec.text = tr.text ∧ rec.words = tr.words ∧ rec.segments = tr.segments := by
  have hget : memGet env (memSet env st path v tr now) path v
      = some { audio_hash := env.hashFn bytes, model_size := v,
               language := tr.language, duration := tr.duration, text := tr.text,
               words := tr.words, segments := tr.segments, created_at := now,
               file_path := path, title := titleFromPath path } := by
    simp only [memGet, memSet, hfs, List.lookup, beq_self_eq_true]
    rfl
  exact ⟨_, hget, rfl, rfl, rfl, rfl, rfl⟩

/-- Witness for C2: round trip at the concrete one-file environment. -/
theorem memory_round_trip_witness :
    envW.fs "a.mp3" = some [1, 2] ∧
    ∃ rec, memGet envW (memSet envW [] "a.mp3" "tiny"
        { language := "en", duration := 2, text := "hello", words := [dWord],
          segments := [dSeg] } 10) "a.mp3" "tiny" = some rec ∧
      rec.language = "en" ∧ rec.duration = 2 ∧ rec.text = "hello" ∧
      rec.words = [dWord] ∧ rec.segments = [dSeg] :=
  ⟨rfl, memory_round_trip envW [] "a.mp3" [1, 2] "tiny"
    { language := "en", duration := 2, text := "hello", words := [dWord],
      segments := [dSeg] } 10 rfl⟩

/-- Helper: slicing a list along a strictly increasing boundary chain
starting at `c` and ending at the list's length reassembles `l.drop c`. -/
theorem join_zip_slices (l : List Seg) : ∀ (bs : List ℕ) (c : ℕ),
    List.Chain (· < ·) c bs → (∀ b ∈ bs, b ≤ l.length) →
    (((c :: bs).zip (bs ++ [l.length])).map
      (fun p => sliceList l p.1 p.2)).flatten = l.drop c := by
  intro bs
  induction bs with
  | nil =>
    intro c _ _
    show ((List.zip (c :: []) ([] ++ [l.length])).map
      (fun p => sliceList l p.1 p.2)).flatten = l.drop c
    simp only [List.nil_append, List.zip_cons_cons, List.zip_nil_right, List.map_cons,
      List.map_nil, List.flatten_cons, List.flatten_nil, List.append_nil, sliceList]
    exact List.take_of_length_le (by simp)
  | cons b bs ih =>
    intro c hchain hb
    have hcb : c < b := (List.chain_cons.mp hchain).1
    have ihb := ih b (List.chain_cons.mp hchain).2
      (fun x hx => hb x (List.mem_cons_of_mem _ hx))
    show ((List.zip (c :: b :: bs) ((b :: bs) ++ [l.length])).map
      (fun p => sliceList l p.1 p.2)).flatten = l.drop c
    rw [List.cons_append, List.zip_cons_cons, List.map_cons, List.flatten_cons, ihb]
    have hdrop : l.drop b = (l.drop c).drop (b - c) := by
      rw [List.drop_drop]
      congr 1
      omega
    rw [sliceList, hdrop, List.take_append_drop]

/-- Helper: each slice pair along such a chain has a strictly smaller
first component, bounded by the list length. -/
theorem zip_slices_bounds (n : ℕ) : ∀ (bs : List ℕ) (c : ℕ),
    List.Chain (· < ·) c bs → (∀ b ∈ bs, b < n) → c < n →
    ∀ p ∈ (c :: bs).zip (bs ++ [n]), p.1 < p.2 ∧ p.2 ≤ n := by
  intro bs
  induction bs with
  | nil =>
    intro c _ _ hc p hp
    simp only [List.nil_append, List.zip_cons_cons, List.zip_nil_right,
      List.mem_singleton] at hp
    subst hp
    exact ⟨hc, le_refl n⟩
  | cons b bs ih =>
    intro c hchain hb hc p hp
    simp only [List.cons_append, List.zip_cons_cons, List.mem_cons] at hp
    rcases hp with rfl | hp
    · exact ⟨(List.chain_cons.mp hchain).1, le_of_lt (hb b (List.mem_cons_self _ _))⟩
    · exact ih b (List.chain_cons.mp hchain).2
        (fun x hx => hb x (List.mem_cons_of_mem _ hx))
        (hb b (List.mem_cons_self _ _)) p hp

/-- Helper: the boundary tail is an increasing chain from 0 (each
boundary is `i + 1` for some similarity-drop index `i`). -/
theorem chapterBoundaries_chain (n : ℕ) (simFn : ℕ → ℚ) (sensitivity : ℚ) :
    List.Chain (· < ·) 0
      (((List.range (n - 1)).filter (fun i => simFn i < sensitivity)).map (· + 1)) := by
  rw [List.chain_iff_pairwise]
  refine List.pairwise_cons.mpr ⟨?_, ?_⟩
  · intro b hb
    simp only [List.mem_map] at hb
    obtain ⟨i, -, rfl⟩ := hb
    exact Nat.succ_pos i
  · exact ((List.pairwise_lt_range _).sublist (List.filter_sublist _)).map _
      (fun a b h => Nat.succ_lt_succ h)

/-- Helper: boundary entries are below `n` when `n ≥ 1`. -/
theorem chapterBoundaries_lt (n : ℕ) (hn : 1 ≤ n) (simFn : ℕ → ℚ) (sensitivity : ℚ) :
    ∀ b ∈ ((List.range (n - 1)).filter (fun i => simFn i < sensitivity)).map (· + 1),
      b < n := by
  intro b hb
  simp only [List.mem_map, List.mem_filter, List.mem_range] at hb
  obtain ⟨i, ⟨hi, -⟩, rfl⟩ := hb
  omega

/-- C3.  Chapter coverage: for every segment list, similarity profile
and sensitivity, the chapter runs concatenate back to exactly the input
segment list (so chapters are contiguous, ordered, non-overlapping, and
cover each segment exactly once); `detect_chapters` returns one chapter
per run; with at least 2 segments every run is non-empty (hence the
first chapter starts at segment 0 and the last ends at the final
segment); and with fewer than 2 segments exactly one chapter is
returned. -/
theorem chapter_coverage (segments : List Seg) (simFn : ℕ → ℚ) (sensitivity : ℚ) :
    (chapterRuns segments simFn sensitivity).flatten = segments ∧
    (detectChapters segments simFn sensitivity).length
      = (chapterRuns segments simFn sensitivity).length ∧
    chapterRuns segments simFn sensitivity ≠ [] ∧
    (∀ run ∈ chapterRuns segments simFn sensitivity,
      run ≠ [] ∨ segments.length < 2) ∧
    (segments.length < 2 → (detectChapters segments simFn sensitivity).length = 1) := by
  by_cases hlen : segments.length < 2
  · refine ⟨?_, ?_, ?_, ?_, ?_⟩
    · simp [chapterRuns, hlen]
    · simp [detectChapters, chapterRuns, hlen]
    · simp [chapterRuns, hlen]
    · intro run _
      exact Or.inr hlen
    · intro _
      simp [detectChapters, hlen]
  · have hn : 1 ≤ segments.length := by omega
    have hn2 : 0 < segments.length := by omega
    have hchain := chapterBoundaries_chain segments.length simFn sensitivity
    have hlt := chapterBoundaries_lt segments.length hn simFn sensitivity
    refine ⟨?_, ?_, ?_, ?_, ?_⟩
    · rw [chapterRuns, if_neg hlen]
      exact (join_zip_slices segments _ 0 hchain
        (fun b hb => le_of_lt (hlt b hb))).trans (List.drop_zero segments)
    · rw [detectChapters, if_neg hlen]
      simp [List.enum_length]
    · rw [chapterRuns, if_neg hlen]
      intro hempty
      have := congrArg List.length hempty
      simp only [List.length_map, List.length_nil, List.length_zip, chapterBoundaries,
        List.length_cons, List.length_append, List.length_drop,
        List.length_singleton] at this
      omega
    · rw [chapterRuns, if_neg hlen]
      intro run hrun
      simp only [List.mem_map] at hrun
      obtain ⟨p, hp, rfl⟩ := hrun
      have hb := zip_slices_bounds segments.length _ 0 hchain hlt hn2 p hp
      refine Or.inl ?_
      have hlen' : (sliceList segments p.1 p.2).length
          = min (p.2 - p.1) (segments.length - p.1) := by
        simp [sliceList, List.length_take, List.length_drop]
      intro hnil
      rw [hnil] at hlen'
      simp only [List.length_nil] at hlen'
      omega
    · intro h
      omega

/-- Witness for C3 at a concrete one-segment input. -/
theorem chapter_coverage_witness :
    (chapterRuns [dSeg] (fun _ => 0) (4 / 10)).flatten = [dSeg] ∧
    (detectChapters [dSeg] (fun _ => 0) (4 / 10)).length
      = (chapterRuns [dSeg] (fun _ => 0) (4 / 10)).length ∧
    chapterRuns [dSeg] (fun _ => 0) (4 / 10) ≠ [] ∧
    (∀ run ∈ chapterRuns [dSeg] (fun _ => 0) (4 / 10),
      run ≠ [] ∨ ([dSeg] : List Seg).length < 2) ∧
    (([dSeg] : List Seg).length < 2 →
      (detectChapters [dSeg] (fun _ => 0) (4 / 10)).length = 1) :=
  chapter_coverage [dSeg] (fun _ => 0) (4 / 10)

/-- Helper: the ranking relation is total. -/
theorem rankRel_total (sims : List ℚ) : ∀ i j, rankRel sims i j ∨ rankRel sims j i := by
  intro i j
  rcases lt_trichotomy (simAt sims i) (simAt sims j) with h | h | h
  · exact Or.inr (Or.inl h)
  · rcases le_total i j with hij | hij
    · exact Or.inl (Or.inr ⟨h, hij⟩)
    · exact Or.inr (Or.inr ⟨h.symm, hij⟩)
  · exact Or.inl (Or.inl h)

/-- Helper: the ranking relation is transitive. -/
theorem rankRel_trans (sims : List ℚ) : ∀ i j k,
    rankRel sims i j → rankRel sims j k → rankRel sims i k := by
  intro i j k hij hjk
  rcases hij with h1 | ⟨h1, h1'⟩ <;> rcases hjk with h2 | ⟨h2, h2'⟩
  · exact Or.inl (lt_trans h2 h1)
  · exact Or.inl (h2 ▸ h1)
  · exact Or.inl (h1 ▸ h2)
  · exact Or.inr ⟨h1.trans h2, h1'.trans h2'⟩

/-- Helper: the reference argsort satisfies the argsort contract (it is
one of the outputs NumPy is allowed to produce). -/
theorem insertionArgsort_isArgsortDesc (sims : List ℚ) :
    IsArgsortDesc sims (insertionArgsort sims) := by
  constructor
  · exact List.perm_insertionSort (rankRel sims) (List.range sims.length)
  · haveI : IsTotal ℕ (rankRel sims) := ⟨rankRel_total sims⟩
    haveI : IsTrans ℕ (rankRel sims) := ⟨rankRel_trans sims⟩
    refine (List.sorted_insertionSort (rankRel sims) (List.range sims.length)).imp ?_
    intro a b h
    rcases h with h | ⟨h, -⟩
    · exact le_of_lt h
    · exact le_of_eq h.symm

/-- Helper: under the argsort contract, the ranked index prefix has
exactly `min top_k n` entries. -/
theorem topIndices_length (argsortFn : List ℚ → List ℕ) (sims : List ℚ)
    (topK : ℕ) (h : IsArgsortDesc sims (argsortFn sims)) :
    (topIndices argsortFn sims topK).length = min topK sims.length := by
  have hlen : (argsortFn sims).length = sims.length := by
    rw [h.1.length_eq, List.length_range]
  simp only [topIndices, List.length_take, hlen]
  omega

/-- Helper: under the argsort contract, the ranked index prefix is in
non-increasing similarity order. -/
theorem topIndices_sorted (argsortFn : List ℚ → List ℕ) (sims : List ℚ)
    (topK : ℕ) (h : IsArgsortDesc sims (argsortFn sims)) :
    List.Pairwise (fun i j => simAt sims j ≤ simAt sims i)
      (topIndices argsortFn sims topK) :=
  h.2.sublist (List.take_sublist _ _)

/-- Helper: under the argsort contract, ranked indices are in range. -/
theorem topIndices_mem_lt (argsortFn : List ℚ → List ℕ) (sims : List ℚ)
    (topK : ℕ) (h : IsArgsortDesc sims (argsortFn sims)) :
    ∀ i ∈ topIndices argsortFn sims topK, i < sims.length := by
  intro i hi
  exact List.mem_range.mp (h.1.mem_iff.mp (List.take_subset _ _ hi))

/-- Helper: `deep_search` builds one result per ranked index, so for
every argsort satisfying the contract its result count is exactly
`min top_k (segment count)` — there is no deduplication pass that could
remove any of them, and the count does not depend on how the sort orders
ties. -/
theorem deepSearchResults_length (argsortFn : List ℚ → List ℕ)
    (segments : List Seg) (simFn : ℕ → ℚ) (snippetFn : ℕ → String) (topK : ℕ)
    (h : IsArgsortDesc (segSims segments simFn) (argsortFn (segSims segments simFn))) :
    (deepSearchResults argsortFn segments simFn snippetFn topK).length
      = min topK segments.length := by
  simp only [deepSearchResults, List.length_map]
  rw [topIndices_length argsortFn (segSims segments simFn) topK h]
  simp [segSims]

/-- C6 counterexample: with two equally-similar candidates
(`sims = [1/2, 1/2]`), the output `[1, 0]` satisfies the argsort
contract (`np.argsort`'s default quicksort is not stable, so it may
return ties in either order), the ranking pipeline then returns the
indices in exactly that order — and that order violates the claimed
tie-break by ascending chronological index. -/
theorem ranking_tie_counterexample :
    IsArgsortDesc [1 / 2, 1 / 2] [1, 0] ∧
    topIndices (fun _ => [1, 0]) [1 / 2, 1 / 2] 2 = [1, 0] ∧
    ¬ List.Pairwise (fun i j => simAt [1 / 2, 1 / 2] j < simAt [1 / 2, 1 / 2] i ∨
        (simAt [1 / 2, 1 / 2] i = simAt [1 / 2, 1 / 2] j ∧ i ≤ j)) [1, 0] := by
  refine ⟨⟨List.Perm.swap 0 1 [], ?_⟩, rfl, ?_⟩
  · refine List.pairwise_cons.mpr ⟨?_, List.pairwise_singleton _ _⟩
    intro j hj
    rw [List.mem_singleton] at hj
    subst hj
    exact le_refl _
  · intro hpw
    have h10 := List.rel_of_pairwise_cons hpw (List.mem_singleton.mpr rfl)
    rcases h10 with h | ⟨-, h⟩
    · exact absurd h (lt_irrefl _)
    · omega

/-- C6 (amended).  For every argsort routine satisfying NumPy's
documented contract, the ranking returns exactly `min top_k n` results
(a `top_k` beyond the candidate count cannot error: the functions are
total), the ranked index prefix is in non-increasing similarity order
and its indices are in range; the order among equally-similar candidates
is whatever the unstable default sort produces and is not guaranteed to
follow the chronological index. -/
theorem ranking_order_and_clamp (argsortFn : List ℚ → List ℕ)
    (hs : ∀ s, IsArgsortDesc s (argsortFn s)) (sims : List ℚ)
    (segments : List Seg) (simFn : ℕ → ℚ) (snippetFn : ℕ → String) (topK : ℕ) :
    (topIndices argsortFn sims topK).length = min topK sims.length ∧
    List.Pairwise (fun i j => simAt sims j ≤ simAt sims i)
      (topIndices argsortFn sims topK) ∧
    (∀ i ∈ topIndices argsortFn sims topK, i < sims.length) ∧
    (deepSearchResults argsortFn segments simFn snippetFn topK).length
      = min topK segments.length :=
  ⟨topIndices_length argsortFn sims topK (hs sims),
   topIndices_sorted argsortFn sims topK (hs sims),
   topIndices_mem_lt argsortFn sims topK (hs sims),
   deepSearchResults_length argsortFn segments simFn snippetFn topK (hs _)⟩

/-- Witness for the amended C6 at the reference argsort and a concrete
three-candidate similarity list. -/
theorem ranking_order_and_clamp_witness :
    (∀ s, IsArgsortDesc s (insertionArgsort s)) ∧
    ((topIndices insertionArgsort [1 / 2, 9 / 10, 1 / 10] 2).length
        = min 2 ([1 / 2, 9 / 10, 1 / 10] : List ℚ).length ∧
      List.Pairwise (fun i j => simAt [1 / 2, 9 / 10, 1 / 10] j
          ≤ simAt [1 / 2, 9 / 10, 1 / 10] i)
        (topIndices insertionArgsort [1 / 2, 9 / 10, 1 / 10] 2) ∧
      (∀ i ∈ topIndices insertionArgsort [1 / 2, 9 / 10, 1 / 10] 2,
        i < ([1 / 2, 9 / 10, 1 / 10] : List ℚ).length) ∧
      (deepSearchResults insertionArgsort [dSeg] (fun _ => 0) (fun _ => "") 2).length
        = min 2 ([dSeg] : List Seg).length) :=
  ⟨insertionArgsort_isArgsortDesc,
    ranking_order_and_clamp insertionArgsort insertionArgsort_isArgsortDesc
      [1 / 2, 9 / 10, 1 / 10] [dSeg] (fun _ => 0) (fun _ => "") 2⟩

/-- C7 (code evaluated at the failing scenario): whatever result
`deep_search` returns, and for every argsort routine satisfying NumPy's
contract, its result count is `min top_k (segment count)` — the function
takes no `dedup_seconds` parameter and performs no temporal
deduplication pass, so no time window can merge any results (the tests'
`deep_search(..., dedup_seconds=...)` calls fail with `TypeError`). -/
theorem deep_search_no_dedup (argsortFn : List ℚ → List ℕ) (audioExists : Bool)
    (segments : List Seg) (simFn : ℕ → ℚ) (snippetFn : ℕ → String)
    (audioPath query modelSize : String) (topK : ℕ) (res : DeepSearchOut)
    (hsort : IsArgsortDesc (segSims segments simFn)
      (argsortFn (segSims segments simFn)))
    (hok : deepSearch argsortFn audioExists segments simFn snippetFn audioPath
      query modelSize topK = Except.ok res) :
    res.results.length = min topK segments.length := by
  unfold deepSearch at hok
  split_ifs at hok with h1 h2
  · obtain rfl := (Except.ok.injEq _ _ ▸ hok)
    simp [h2]
  · obtain rfl := (Except.ok.injEq _ _ ▸ hok)
    exact deepSearchResults_length argsortFn segments simFn snippetFn topK hsort

/-- Witness for C7: two same-source segments 5 seconds apart, both
highly similar to the query, are both reported (`min 6 2 = 2` results:
nothing is collapsed by any time window). -/
theorem deep_search_no_dedup_witness :
    deepSearch insertionArgsort true [⟨0, 4, "s1"⟩, ⟨5, 9, "s2"⟩]
        (fun i => if i = 0 then 9 / 10 else 8 / 10) (fun _ => "") "p" "q" "tiny" 6
      = Except.ok
          { query := "q",
            results := deepSearchResults insertionArgsort [⟨0, 4, "s1"⟩, ⟨5, 9, "s2"⟩]
              (fun i => if i = 0 then 9 / 10 else 8 / 10) (fun _ => "") 6,
            total_segments := 2, model_used := "tiny" } ∧
    ({ query := "q",
        results := deepSearchResults insertionArgsort [⟨0, 4, "s1"⟩, ⟨5, 9, "s2"⟩]
          (fun i => if i = 0 then 9 / 10 else 8 / 10) (fun _ => "") 6,
        total_segments := 2, model_used := "tiny" } : DeepSearchOut).results.length
      = min 6 2 :=
  ⟨rfl, deep_search_no_dedup insertionArgsort true [⟨0, 4, "s1"⟩, ⟨5, 9, "s2"⟩]
    (fun i => if i = 0 then 9 / 10 else 8 / 10) (fun _ => "") "p" "q" "tiny" 6 _
    (insertionArgsort_isArgsortDesc _) rfl⟩

/-- C8 counterexample: `deep_search` performs no query validation — on
an existing audio file with one segment, the empty query `""` returns a
normal success result instead of raising an "invalid input" error (the
success is independent of the argsort routine; the reference one is used
to state a closed equation). -/
theorem empty_query_counterexample :
    deepSearch insertionArgsort true [dSeg] (fun _ => 0) (fun _ => "") "a.mp3" ""
        "tiny" 5
      = Except.ok
          { query := "",
            results := deepSearchResults insertionArgsort [dSeg]
              (fun _ => 0) (fun _ => "") 5,
            total_segments := 1, model_used := "tiny" } := rfl

/-- C8 (amended).  Only the memory search entry point rejects blank
queries: `search_memory` raises `ValueError` for every empty or
whitespace-only query (in every mode, before touching the store), while
the per-file semantic ranking entry point `deep_search` performs no
query validation and returns a success result whenever the audio file
exists — for every argsort routine. -/
theorem invalid_query_amended (query : String) (hq : pyStrip query = "") :
    (∀ (argsortFn : List ℚ → List ℕ) (entries : List MemEntry) (simFn : ℕ → ℚ)
        (snippetFn : ℕ → String) (topK : ℕ) (mode : String),
      searchMemory argsortFn entries simFn snippetFn query topK mode
        = Except.error (.valueError "Missing required parameter: query")) ∧
    (∀ (argsortFn : List ℚ → List ℕ) (segments : List Seg) (simFn : ℕ → ℚ)
        (snippetFn : ℕ → String) (audioPath modelSize : String) (topK : ℕ),
      ∃ res, deepSearch argsortFn true segments simFn snippetFn audioPath query
        modelSize topK = Except.ok res) := by
  constructor
  · intro argsortFn entries simFn snippetFn topK mode
    rw [searchMemory, if_pos hq]
  · intro argsortFn segments simFn snippetFn audioPath modelSize topK
    unfold deepSearch
    rw [if_neg (by simp : ¬(true = false))]
    by_cases hseg : segments.length = 0
    · rw [if_pos hseg]
      exact ⟨_, rfl⟩
    · rw [if_neg hseg]
      exact ⟨_, rfl⟩

/-- Witness for the amended C8 at the whitespace-only query. -/
theorem invalid_query_amended_witness :
    pyStrip " " = "" ∧
    searchMemory insertionArgsort [] (fun _ => 0) (fun _ => "") " " 5 "semantic"
      = Except.error (.valueError "Missing required parameter: query") :=
  ⟨rfl, (invalid_query_amended " " rfl).1 insertionArgsort [] (fun _ => 0)
    (fun _ => "") 5 "semantic"⟩

/-- C10.  For every non-blank query (and every argsort routine),
`search_memory` in mode `"keyword"` fails with `AttributeError` before
producing any results, because it calls
`memory.get_all_with_segments()`, which `TranscriptionMemory` does not
define; mode `"semantic"` completes with a success result. -/
theorem keyword_mode_attribute_error (argsortFn : List ℚ → List ℕ)
    (entries : List MemEntry) (simFn : ℕ → ℚ) (snippetFn : ℕ → String)
    (query : String) (topK : ℕ) (hq : ¬pyStrip query = "") :
    searchMemory argsortFn entries simFn snippetFn query topK "keyword"
      = Except.error (.attributeError
          "'TranscriptionMemory' object has no attribute 'get_all_with_segments'") ∧
    ∃ res, searchMemory argsortFn entries simFn snippetFn query topK "semantic"
      = Except.ok res := by
  constructor
  · rw [searchMemory, if_neg hq, if_neg (by simp), if_pos rfl]
  · rw [searchMemory, if_neg hq, if_neg (by simp), if_neg (by decide)]
    by_cases hent : entries.length = 0
    · rw [if_pos hent]
      exact ⟨_, rfl⟩
    · rw [if_neg hent]
      exact ⟨_, rfl⟩

/-- Witness for C10 at a concrete non-blank query. -/
theorem keyword_mode_attribute_error_witness :
    ¬pyStrip "hello" = "" ∧
    searchMemory insertionArgsort [] (fun _ => 0) (fun _ => "") "hello" 5 "keyword"
      = Except.error (.attributeError
          "'TranscriptionMemory' object has no attribute 'get_all_with_segments'") :=
  ⟨by decide,
    (keyword_mode_attribute_error insertionArgsort [] (fun _ => 0) (fun _ => "")
      "hello" 5 (by decide)).1⟩

end Augent
